import Mathlib

/-!
Shallow embedding of the Fire Tower game engine (`src/firetower.py`).

The Python source is a single-file, single-threaded board-game engine:
a 16x16 grid of tile statuses, four corner players, a wind mechanic, a
family of validated board-mutating actions, and a victory scan run after
every command.  GUI concerns (PySimpleGUI windows, colors, drawing) are
outside the model; `print` calls are informational logging and are not
modelled.  Python's `random.choice` is modelled by an injected list of
draw indices, and the iteration order of the Python set of remaining
corners in `Players.get_players` is modelled as an explicit `order`
parameter (Python set iteration order is unspecified).
-/

namespace FireTower

/-- `Point` from the source: an integer pair with vector arithmetic. -/
structure Point where
  x : Int
  y : Int
deriving DecidableEq

instance : Add Point := ⟨fun a b => ⟨a.x + b.x, a.y + b.y⟩⟩

instance : Sub Point := ⟨fun a b => ⟨a.x - b.x, a.y - b.y⟩⟩

/-- `Point.left`: one step in negative x. -/
def Point.left (p : Point) : Point := p + ⟨-1, 0⟩

/-- `Point.right`: one step in positive x. -/
def Point.right (p : Point) : Point := p + ⟨1, 0⟩

/-- `Point.up`: one step in negative y. -/
def Point.up (p : Point) : Point := p + ⟨0, -1⟩

/-- `Point.down`: one step in positive y. -/
def Point.down (p : Point) : Point := p + ⟨0, 1⟩

/-- `WindDir` from the source: the four cardinal wind directions. -/
inductive WindDir where
  | N | W | E | S
deriving DecidableEq, Fintype

/-- `WindDir.as_vector` from the source. -/
def WindDir.as_vector : WindDir → Point
  | .N => ⟨0, -1⟩
  | .W => ⟨-1, 0⟩
  | .E => ⟨1, 0⟩
  | .S => ⟨0, 1⟩

/-- `TileStatus` from the source. -/
inductive TileStatus where
  | fire | tree | firebreak | off_board
deriving DecidableEq

/-- `FireTowerGame.BOARD_SIZE` from the source. -/
def BOARD_SIZE : Int := 16

/-- Python `range(a, b)` over integers, as a list. -/
def int_range (a b : Int) : List Int :=
  (List.range (b - a).toNat).map (fun (i : Nat) => a + (i : Int))

/-- `FireTowerGame.get_board_range` from the source: the cartesian product
of an x range and a y range, as points. -/
def get_board_range (xs ys : List Int) : List Point :=
  xs.flatMap (fun x => ys.map (fun y => ⟨x, y⟩))

/-- `FireTowerGame.eternal_flame` from the source: the central 2x2 block
computed from `BOARD_SIZE`. -/
def eternal_flame : List Point :=
  get_board_range (int_range (BOARD_SIZE / 2 - 1) (BOARD_SIZE / 2 + 1))
    (int_range (BOARD_SIZE / 2 - 1) (BOARD_SIZE / 2 + 1))

/-- `Corner` from the source: a vertical and a horizontal wind component.
The source constructor rejects wind directions on the wrong axis; the
four canonical corners below are the only ones the engine builds. -/
structure Corner where
  y_wind : WindDir
  x_wind : WindDir
deriving DecidableEq, Fintype

/-- `Corner.point` from the source: the anchor (extreme corner) cell. -/
def Corner.point (c : Corner) : Point :=
  ⟨if c.x_wind = WindDir.W then 0 else BOARD_SIZE - 1,
   if c.y_wind = WindDir.N then 0 else BOARD_SIZE - 1⟩

/-- `Corner.tower` from the source: the 3x3 block flush with that corner. -/
def Corner.tower (c : Corner) : List Point :=
  get_board_range
    (if c.x_wind = WindDir.W then int_range 0 3 else int_range (BOARD_SIZE - 3) BOARD_SIZE)
    (if c.y_wind = WindDir.N then int_range 0 3 else int_range (BOARD_SIZE - 3) BOARD_SIZE)

/-- `CORNERS` from the source, in its literal order NW, NE, SE, SW. -/
def CORNERS : List Corner :=
  [⟨WindDir.N, WindDir.W⟩, ⟨WindDir.N, WindDir.E⟩, ⟨WindDir.S, WindDir.E⟩, ⟨WindDir.S, WindDir.W⟩]

/-- `Player` from the source. -/
structure Player where
  name : String
  corner : Corner
  active : Bool
deriving DecidableEq

/-- `Board` from the source: the in-bounds grid.  The Python dict holding
exactly the in-bounds coordinates is modelled as a total function whose
values outside the grid are never read (`get` guards with `on_board`,
`set` only writes in bounds, mirroring `__getitem__`/`__setitem__`). -/
structure Board where
  grid : Point → TileStatus

/-- `Board.on_board` from the source: membership of both coordinates in
`range(0, BOARD_SIZE)`. -/
def Board.on_board (p : Point) : Bool :=
  decide (0 ≤ p.x ∧ p.x < BOARD_SIZE ∧ 0 ≤ p.y ∧ p.y < BOARD_SIZE)

/-- `Board.__getitem__` from the source: stored status in bounds,
`off_board` sentinel otherwise.  Never fails. -/
def Board.get (b : Board) (p : Point) : TileStatus :=
  if Board.on_board p then b.grid p else TileStatus.off_board

/-- `Board.__setitem__` from the source: overwrite in bounds, silent
no-op out of bounds.  Never fails. -/
def Board.set (b : Board) (p : Point) (v : TileStatus) : Board :=
  if Board.on_board p then ⟨fun q => if q = p then v else b.grid q⟩ else b

/-- `FireTowerGame.has_orthogonal` from the source (it only consults the
board, so it is defined on `Board`). -/
def Board.has_orthogonal (b : Board) (p : Point) (s : TileStatus) : Prop :=
  b.get p.left = s ∨ b.get p.right = s ∨ b.get p.up = s ∨ b.get p.down = s

instance (b : Board) (p : Point) (s : TileStatus) : Decidable (b.has_orthogonal p s) := by
  unfold Board.has_orthogonal
  exact inferInstance

/-- `Players.get_players` from the source, with the Python deque of
remaining corners (`deque({*CORNERS} - taken_corners)`) supplied as the
explicit list `order` (Python set iteration order is unspecified).
The index argument numbers the slots for default player names.
`none` is returned when the deque underflows (`popleft` on empty),
which raises in Python. -/
def get_players_aux : List (Option Player) → List Corner → Nat → Option (List Player)
  | [], _, _ => some []
  | some p :: rest, cs, i => (get_players_aux rest cs (i + 1)).map (fun ps => p :: ps)
  | none :: _, [], _ => none
  | none :: rest, c :: cs, i =>
      (get_players_aux rest cs (i + 1)).map
        (fun ps => ⟨"Player " ++ toString (i + 1), c, true⟩ :: ps)

/-- The corners claimed by the supplied (non-`none`) slots, in slot order
(the source's `taken_corners` set, as a list). -/
def taken_corners (slots : List (Option Player)) : List Corner :=
  slots.filterMap (fun s => s.map Player.corner)

/-- `Players.get_players` from the source (see `get_players_aux`). -/
def get_players (slots : List (Option Player)) (order : List Corner) : Option (List Player) :=
  get_players_aux slots order 0

/-- `order` is a valid iteration of the Python set
`{*CORNERS} - taken_corners`: duplicate-free and containing exactly the
corners of `CORNERS` not claimed by a supplied slot. -/
def remaining_order (slots : List (Option Player)) (order : List Corner) : Prop :=
  order.Nodup ∧ (∀ c ∈ order, c ∈ CORNERS) ∧ (∀ c ∈ order, c ∉ taken_corners slots) ∧
    (∀ c ∈ CORNERS, c ∉ taken_corners slots → c ∈ order)

instance (slots : List (Option Player)) (order : List Corner) :
    Decidable (remaining_order slots order) := by
  unfold remaining_order
  exact inferInstance

/-- The default four-player roster built by `FireTowerGame.__init__` via
`Players.four_player()` (all slots empty), with the remaining-corner set
iterated in `CORNERS` order. -/
def init_players : List Player :=
  (get_players [none, none, none, none] CORNERS).getD []

/-- The selectable action kinds (the source stores the bound methods
themselves in `self.action`; a tagged enumeration replaces the callables). -/
inductive ActionKind where
  | windFire | dozerLine | scratchLine | deReForest | flareUp
  | burningSnag | explosionK | emberOne | emberTwo | noAction
deriving DecidableEq

/-- `OrientationEnum` from the source. -/
inductive OrientationEnum where
  | h | v
deriving DecidableEq

/-- `OrientationEnum.flip` from the source. -/
def OrientationEnum.flip : OrientationEnum → OrientationEnum
  | .h => .v
  | .v => .h

/-- The engine state of `FireTowerGame`: the GUI window is not modelled,
`self.wind` is a `WindDir` (it is `None` only before the initial roll). -/
structure FireTowerGame where
  active : Bool
  board : Board
  players : List Player
  wind : WindDir
  action : ActionKind
  orientation : OrientationEnum

/-- `FireTowerGame.towers` from the source: the union of every player's
tower (as a list; membership matches the source's set union). -/
def FireTowerGame.towers (g : FireTowerGame) : List Point :=
  g.players.flatMap (fun pl => pl.corner.tower)

/-- The initial board: all tiles `tree`, then the eternal flame ignited
(`FireTowerGame.__init__`). -/
def init_board : Board :=
  eternal_flame.foldl (fun b p => b.set p TileStatus.fire) ⟨fun _ => TileStatus.tree⟩

/-- `FireTowerGame.__init__` (minus GUI): fresh board, default roster,
initial action `add_wind_fire`, horizontal orientation; `w0` is the
outcome of the initial `roll_wind` (all four directions are valid on the
full roster). -/
def FireTowerGame.init (w0 : WindDir) : FireTowerGame :=
  { active := true, board := init_board, players := init_players, wind := w0,
    action := ActionKind.windFire, orientation := OrientationEnum.h }

/-- Legality of `add_wind_fire`: target is `tree` and the cell one wind
vector upwind (`point - self.wind.as_vector()`) is `fire`. -/
def wind_fire_legal (g : FireTowerGame) (p : Point) : Prop :=
  g.board.get p = TileStatus.tree ∧ g.board.get (p - g.wind.as_vector) = TileStatus.fire

instance (g : FireTowerGame) (p : Point) : Decidable (wind_fire_legal g p) := by
  unfold wind_fire_legal
  exact inferInstance

/-- `FireTowerGame.add_wind_fire` from the source. -/
def FireTowerGame.add_wind_fire (g : FireTowerGame) (p : Point) : FireTowerGame :=
  if wind_fire_legal g p then { g with board := g.board.set p TileStatus.fire } else g

/-- `FireTowerGame.validate_firebreak` from the source: target is `tree`,
outside every tower, and not orthogonally adjacent to a firebreak. -/
def FireTowerGame.validate_firebreak (g : FireTowerGame) (p : Point) : Prop :=
  g.board.get p = TileStatus.tree ∧ p ∉ g.towers ∧
    ¬ g.board.has_orthogonal p TileStatus.firebreak

instance (g : FireTowerGame) (p : Point) : Decidable (g.validate_firebreak p) := by
  unfold FireTowerGame.validate_firebreak
  exact inferInstance

/-- Legality of `add_firebreak_cluster`: both cluster cells validate. -/
def cluster_legal (g : FireTowerGame) (c : Point × Point) : Prop :=
  g.validate_firebreak c.1 ∧ g.validate_firebreak c.2

instance (g : FireTowerGame) (c : Point × Point) : Decidable (cluster_legal g c) := by
  unfold cluster_legal
  exact inferInstance

/-- `FireTowerGame.add_firebreak_cluster` from the source. -/
def FireTowerGame.add_firebreak_cluster (g : FireTowerGame) (c : Point × Point) : FireTowerGame :=
  if cluster_legal g c then
    { g with board := (g.board.set c.1 TileStatus.firebreak).set c.2 TileStatus.firebreak }
  else g

/-- The two cells of a dozer line at `p` under the current orientation. -/
def dozer_cluster (g : FireTowerGame) (p : Point) : Point × Point :=
  if g.orientation = OrientationEnum.h then (p, p.right) else (p, p.down)

/-- `FireTowerGame.dozer_line` from the source. -/
def FireTowerGame.dozer_line (g : FireTowerGame) (p : Point) : FireTowerGame :=
  g.add_firebreak_cluster (dozer_cluster g p)

/-- The two cells of a scratch line at `p` under the current orientation. -/
def scratch_cluster (g : FireTowerGame) (p : Point) : Point × Point :=
  if g.orientation = OrientationEnum.h then (p, p.right.right) else (p, p.down.down)

/-- `FireTowerGame.scratch_line` from the source. -/
def FireTowerGame.scratch_line (g : FireTowerGame) (p : Point) : FireTowerGame :=
  g.add_firebreak_cluster (scratch_cluster g p)

/-- Legality of `de_re_forest`: either a legal firebreak placement or an
existing firebreak to revert. -/
def drf_legal (g : FireTowerGame) (p : Point) : Prop :=
  g.validate_firebreak p ∨ g.board.get p = TileStatus.firebreak

instance (g : FireTowerGame) (p : Point) : Decidable (drf_legal g p) := by
  unfold drf_legal
  exact inferInstance

/-- `FireTowerGame.de_re_forest` from the source. -/
def FireTowerGame.de_re_forest (g : FireTowerGame) (p : Point) : FireTowerGame :=
  if g.validate_firebreak p then { g with board := g.board.set p TileStatus.firebreak }
  else if g.board.get p = TileStatus.firebreak then
    { g with board := g.board.set p TileStatus.tree }
  else g

/-- The three cells of a flare-up line at `p` under the current
orientation. -/
def flare_line (g : FireTowerGame) (p : Point) : List Point :=
  if g.orientation = OrientationEnum.h then [p, p.right, p.right.right]
  else [p, p.down, p.down.down]

/-- The candidate-filter loop of `flare_up`: walk the line, stop at the
first firebreak, keep the `tree` cells. -/
def flare_candidates (b : Board) : List Point → List Point
  | [] => []
  | p :: rest =>
      if b.get p = TileStatus.firebreak then []
      else if b.get p = TileStatus.tree then p :: flare_candidates b rest
      else flare_candidates b rest

/-- Legality of `flare_up`: some candidate cell is orthogonally adjacent
to existing fire. -/
def flare_legal (g : FireTowerGame) (p : Point) : Prop :=
  ∃ q ∈ flare_candidates g.board (flare_line g p), g.board.has_orthogonal q TileStatus.fire

instance (g : FireTowerGame) (p : Point) : Decidable (flare_legal g p) := by
  unfold flare_legal
  exact inferInstance

/-- `FireTowerGame.flare_up` from the source. -/
def FireTowerGame.flare_up (g : FireTowerGame) (p : Point) : FireTowerGame :=
  if flare_legal g p then
    let b2 := List.foldl (fun b q => b.set q TileStatus.fire) g.board
      (flare_candidates g.board (flare_line g p))
    { g with board := b2 }
  else g

/-- The 2x2 square of `burning_snag` with `p` as its upper-left corner,
in source order. -/
def snag_square (p : Point) : List Point :=
  [p, p.right, p.down, p.right.down]

/-- Legality of `burning_snag`: some square cell is orthogonally adjacent
to fire and some square cell is `tree`. -/
def snag_legal (g : FireTowerGame) (p : Point) : Prop :=
  (∃ q ∈ snag_square p, g.board.has_orthogonal q TileStatus.fire) ∧
    (∃ q ∈ snag_square p, g.board.get q = TileStatus.tree)

instance (g : FireTowerGame) (p : Point) : Decidable (snag_legal g p) := by
  unfold snag_legal
  exact inferInstance

/-- `FireTowerGame.burning_snag` from the source: every `tree` cell of
the square becomes `fire` (the loop re-reads the evolving board, as in
the source). -/
def FireTowerGame.burning_snag (g : FireTowerGame) (p : Point) : FireTowerGame :=
  if snag_legal g p then
    let b2 := List.foldl
      (fun b q => if b.get q = TileStatus.tree then b.set q TileStatus.fire else b)
      g.board (snag_square p)
    { g with board := b2 }
  else g

/-- The 8 surrounding cells of an explosion target, in source order. -/
def explosion_area (p : Point) : List Point :=
  [p.up.left, p.up, p.up.right, p.right, p.left, p.down.left, p.down, p.down.right]

/-- Legality of `explosion`: target is `fire`, outside the eternal flame,
and at least one of the 8 surrounding cells is `tree` (the source's early
return plus its inner guard). -/
def explosion_legal (g : FireTowerGame) (p : Point) : Prop :=
  g.board.get p = TileStatus.fire ∧ p ∉ eternal_flame ∧
    ∃ q ∈ explosion_area p, g.board.get q = TileStatus.tree

instance (g : FireTowerGame) (p : Point) : Decidable (explosion_legal g p) := by
  unfold explosion_legal
  exact inferInstance

/-- `FireTowerGame.explosion` from the source: target becomes `firebreak`,
then every `tree` neighbour becomes `fire` (the loop re-reads the evolving
board, as in the source). -/
def FireTowerGame.explosion (g : FireTowerGame) (p : Point) : FireTowerGame :=
  if explosion_legal g p then
    let b2 := List.foldl
      (fun b q => if b.get q = TileStatus.tree then b.set q TileStatus.fire else b)
      (g.board.set p TileStatus.firebreak) (explosion_area p)
    { g with board := b2 }
  else g

/-- Legality of `ember_phase_one`: target is `fire`, outside the eternal
flame, outside every tower. -/
def ember_one_legal (g : FireTowerGame) (p : Point) : Prop :=
  g.board.get p = TileStatus.fire ∧ p ∉ eternal_flame ∧ p ∉ g.towers

instance (g : FireTowerGame) (p : Point) : Decidable (ember_one_legal g p) := by
  unfold ember_one_legal
  exact inferInstance

/-- `FireTowerGame.ember_phase_one` from the source: lift the fire gem
(target becomes `tree`) and switch the current action to phase two. -/
def FireTowerGame.ember_phase_one (g : FireTowerGame) (p : Point) : FireTowerGame :=
  if ember_one_legal g p then
    { g with board := g.board.set p TileStatus.tree, action := ActionKind.emberTwo }
  else g

/-- Legality of `ember_phase_two`: target is `tree` and orthogonally
adjacent to existing fire. -/
def ember_two_legal (g : FireTowerGame) (p : Point) : Prop :=
  g.board.get p = TileStatus.tree ∧ g.board.has_orthogonal p TileStatus.fire

instance (g : FireTowerGame) (p : Point) : Decidable (ember_two_legal g p) := by
  unfold ember_two_legal
  exact inferInstance

/-- `FireTowerGame.ember_phase_two` from the source: place the gem
(target becomes `fire`) and switch the current action to `no_action`. -/
def FireTowerGame.ember_phase_two (g : FireTowerGame) (p : Point) : FireTowerGame :=
  if ember_two_legal g p then
    { g with board := g.board.set p TileStatus.fire, action := ActionKind.noAction }
  else g

/-- Dispatch of `self.action(event)` for a board-click event. -/
def FireTowerGame.run_action (g : FireTowerGame) (p : Point) : FireTowerGame :=
  match g.action with
  | .windFire => g.add_wind_fire p
  | .dozerLine => g.dozer_line p
  | .scratchLine => g.scratch_line p
  | .deReForest => g.de_re_forest p
  | .flareUp => g.flare_up p
  | .burningSnag => g.burning_snag p
  | .explosionK => g.explosion p
  | .emberOne => g.ember_phase_one p
  | .emberTwo => g.ember_phase_two p
  | .noAction => g

/-- Burning a whole tower to fire, as in the elimination loop of
`check_for_victory`. -/
def burn_tower (b : Board) (c : Corner) : Board :=
  c.tower.foldl (fun b q => b.set q TileStatus.fire) b

/-- The elimination loop of `check_for_victory`: scan the players in
order; each still-active player whose home cell is `fire` is marked
inactive and their tower is burned (later players see the updated board,
as in the source). -/
def elim_pass (b : Board) : List Player → Board × List Player
  | [] => (b, [])
  | pl :: rest =>
      if pl.active ∧ b.get pl.corner.point = TileStatus.fire then
        ((elim_pass (burn_tower b pl.corner) rest).1,
          { pl with active := false } :: (elim_pass (burn_tower b pl.corner) rest).2)
      else
        ((elim_pass b rest).1, pl :: (elim_pass b rest).2)

/-- `FireTowerGame.check_for_victory` from the source: run the
elimination pass, then end the game (`self.victory`, modelled as
`active := false`; the winner announcement is a `print`) exactly when
one active player remains. -/
def FireTowerGame.check_for_victory (g : FireTowerGame) : FireTowerGame :=
  if (((elim_pass g.board g.players).2.filter (fun pl => pl.active)).length = 1) then
    { g with board := (elim_pass g.board g.players).1,
             players := (elim_pass g.board g.players).2, active := false }
  else
    { g with board := (elim_pass g.board g.players).1,
             players := (elim_pass g.board g.players).2 }

/-- The valid wind set of `roll_wind`: the union of every active player's
two corner wind components (`Corner.__iter__` yields `[y_wind, x_wind]`);
a list whose membership matches the source's set. -/
def valid_winds (players : List Player) : List WindDir :=
  (players.filter (fun pl => pl.active)).flatMap
    (fun pl => [pl.corner.y_wind, pl.corner.x_wind])

/-- The retry loop of `roll_wind`, with `random.choice` modelled by a
list of draw indices.  `Except.error ()` is the `IndexError` that
`random.choice` raises on an empty valid set; `Except.ok none` means the
supplied draws were exhausted with the loop still running (the loop
re-draws while the draw equals the previous wind). -/
def roll_wind_aux (valid : List WindDir) (old : Option WindDir) :
    List Nat → Except Unit (Option WindDir)
  | [] => Except.ok none
  | i :: rest =>
      if h : 0 < valid.length then
        if some (valid.get ⟨i % valid.length, Nat.mod_lt i h⟩) = old then
          roll_wind_aux valid old rest
        else Except.ok (some (valid.get ⟨i % valid.length, Nat.mod_lt i h⟩))
      else Except.error ()

/-- `FireTowerGame.roll_wind` from the source, over a supplied draw
sequence. -/
def roll_wind (players : List Player) (old : Option WindDir) (draws : List Nat) :
    Except Unit (Option WindDir) :=
  roll_wind_aux (valid_winds players) old draws

/-- `FireTowerGame.set_oriented_action` from the source: re-selecting the
current action flips the orientation; the action is then stored. -/
def FireTowerGame.set_oriented_action (g : FireTowerGame) (a : ActionKind) : FireTowerGame :=
  let g2 := if g.action = a then { g with orientation := g.orientation.flip } else g
  { g2 with action := a }

/-- The events `FireTowerGame.update` handles: a board click, a wind roll
(with the drawn outcome `w`), the eight action-select buttons, the
window-close path of `game_loop` (which sets `self.active = False` and
still calls `update`), and any other event. -/
inductive Event where
  | point (p : Point)
  | wind (w : WindDir)
  | fire | dl | sl | drf | fl | expl | embr | bsng
  | quit
  | other

/-- `FireTowerGame.update` from the source: handle the event, then always
run `check_for_victory`.  A wind event installs `w` exactly when `w` is a
possible outcome of `roll_wind` (valid and different from the previous
wind); other outcomes of the retry loop do not terminate it. -/
def FireTowerGame.update (g : FireTowerGame) (e : Event) : FireTowerGame :=
  (match e with
   | .point p => g.run_action p
   | .wind w => if w ∈ valid_winds g.players ∧ w ≠ g.wind then { g with wind := w } else g
   | .fire => { g with action := ActionKind.windFire }
   | .dl => g.set_oriented_action ActionKind.dozerLine
   | .sl => g.set_oriented_action ActionKind.scratchLine
   | .drf => { g with action := ActionKind.deReForest }
   | .fl => g.set_oriented_action ActionKind.flareUp
   | .expl => { g with action := ActionKind.explosionK }
   | .embr => { g with action := ActionKind.emberOne }
   | .bsng => { g with action := ActionKind.burningSnag }
   | .quit => { g with active := false }
   | .other => g).check_for_victory

/-- A game state is reachable when some initial wind roll and some event
sequence produce it. -/
def Reachable (g : FireTowerGame) : Prop :=
  ∃ (w0 : WindDir) (evs : List Event), g = evs.foldl FireTowerGame.update (FireTowerGame.init w0)

/-! ## Board access lemmas -/

theorem Board.set_off_board (b : Board) (p : Point) (v : TileStatus)
    (h : ¬ Board.on_board p) : b.set p v = b := by
  unfold Board.set
  simp [h]

theorem Board.get_set (b : Board) (p q : Point) (v : TileStatus) :
    (b.set p v).get q = if q = p ∧ Board.on_board p then v else b.get q := by
  unfold Board.set Board.get
  by_cases hb : Board.on_board p
  · by_cases hq : q = p
    · subst hq
      simp [hb]
    · simp [hb, hq]
  · simp [hb]

theorem Board.get_set_same (b : Board) (p : Point) (v : TileStatus)
    (h : Board.on_board p) : (b.set p v).get p = v := by
  rw [Board.get_set]
  simp [h]

theorem Board.get_set_ne (b : Board) (p q : Point) (v : TileStatus)
    (h : q ≠ p) : (b.set p v).get q = b.get q := by
  rw [Board.get_set]
  simp [h]

/-! ## Claim C9 -/

/-- Claim C9: for every coordinate outside the 16x16 grid, `get` returns
the `off_board` sentinel and `set` leaves the board unchanged (both are
total functions, so neither fails), and `has_orthogonal` never reports a
match of a real (non-sentinel) status against an off-board neighbour:
any match it reports is at an on-board neighbour holding that status. -/
theorem c9_off_board_access :
    (∀ (b : Board) (p : Point), ¬ Board.on_board p → b.get p = TileStatus.off_board) ∧
    (∀ (b : Board) (p : Point) (v : TileStatus), ¬ Board.on_board p → b.set p v = b) ∧
    (∀ (b : Board) (p : Point) (s : TileStatus), s ≠ TileStatus.off_board →
      b.has_orthogonal p s →
      ∃ q ∈ [p.left, p.right, p.up, p.down], Board.on_board q ∧ b.get q = s) := by
  refine ⟨?_, ?_, ?_⟩
  · intro b p h
    unfold Board.get
    simp [h]
  · intro b p v h
    exact Board.set_off_board b p v h
  · intro b p s hs horth
    have key : ∀ q : Point, b.get q = s → Board.on_board q = true := by
      intro q hq
      by_contra hq2
      rw [show b.get q = TileStatus.off_board by unfold Board.get; simp [hq2]] at hq
      exact hs hq.symm
    rcases horth with h | h | h | h
    · exact ⟨p.left, by simp, key _ h, h⟩
    · exact ⟨p.right, by simp, key _ h, h⟩
    · exact ⟨p.up, by simp, key _ h, h⟩
    · exact ⟨p.down, by simp, key _ h, h⟩

/-- Witness for C9 at concrete inputs: `(-1, 0)` is off board on the
fresh board (read gives the sentinel, write is a no-op), and a true
`has_orthogonal` for `fire` at `(7, 6)` is backed by an on-board
neighbour. -/
theorem c9_off_board_access_witness :
    init_board.get ⟨-1, 0⟩ = TileStatus.off_board ∧
    init_board.set ⟨-1, 0⟩ TileStatus.fire = init_board ∧
    ∃ q ∈ [Point.left ⟨7, 6⟩, Point.right ⟨7, 6⟩, Point.up ⟨7, 6⟩, Point.down ⟨7, 6⟩],
      Board.on_board q ∧ init_board.get q = TileStatus.fire := by
  refine ⟨c9_off_board_access.1 init_board ⟨-1, 0⟩ (by decide),
    c9_off_board_access.2.1 init_board ⟨-1, 0⟩ TileStatus.fire (by decide),
    c9_off_board_access.2.2 init_board ⟨7, 6⟩ TileStatus.fire (by decide) (by decide)⟩

/-! ## Claim C2 -/

/-- Claim C2: for every action kind, a target that fails that action's
legality predicate leaves every tile of the board unchanged (each handler
is a total function — rejection is a silent no-op on the board, logged in
the source with `print`, never a thrown fault). -/
theorem c2_rejected_actions_leave_board (g : FireTowerGame) (p : Point) :
    (¬ wind_fire_legal g p → (g.add_wind_fire p).board = g.board) ∧
    (¬ cluster_legal g (dozer_cluster g p) → (g.dozer_line p).board = g.board) ∧
    (¬ cluster_legal g (scratch_cluster g p) → (g.scratch_line p).board = g.board) ∧
    (¬ drf_legal g p → (g.de_re_forest p).board = g.board) ∧
    (¬ flare_legal g p → (g.flare_up p).board = g.board) ∧
    (¬ snag_legal g p → (g.burning_snag p).board = g.board) ∧
    (¬ explosion_legal g p → (g.explosion p).board = g.board) ∧
    (¬ ember_one_legal g p → (g.ember_phase_one p).board = g.board) ∧
    (¬ ember_two_legal g p → (g.ember_phase_two p).board = g.board) := by
  refine ⟨?_, ?_, ?_, ?_, ?_, ?_, ?_, ?_, ?_⟩
  · intro h
    unfold FireTowerGame.add_wind_fire
    rw [if_neg h]
  · intro h
    unfold FireTowerGame.dozer_line FireTowerGame.add_firebreak_cluster
    rw [if_neg h]
  · intro h
    unfold FireTowerGame.scratch_line FireTowerGame.add_firebreak_cluster
    rw [if_neg h]
  · intro h
    unfold FireTowerGame.de_re_forest
    rw [if_neg (fun h1 => h (Or.inl h1)), if_neg (fun h2 => h (Or.inr h2))]
  · intro h
    unfold FireTowerGame.flare_up
    rw [if_neg h]
  · intro h
    unfold FireTowerGame.burning_snag
    rw [if_neg h]
  · intro h
    unfold FireTowerGame.explosion
    rw [if_neg h]
  · intro h
    unfold FireTowerGame.ember_phase_one
    rw [if_neg h]
  · intro h
    unfold FireTowerGame.ember_phase_two
    rw [if_neg h]

/-- Witness for C2: one concretely rejected target per action kind on the
fresh board, each leaving the board unchanged.  (Wind fire at `(0,0)` has
no upwind fire; the firebreak family and de/re-forest fail at the burning
`(7,7)`; flare-up at `(0,0)` has no fire-adjacent candidate; burning snag
at `(5,5)` has no fire-adjacent square cell; explosion and ember phase
one fail on the non-fire `(0,0)`; ember phase two fails at `(0,0)` with
no adjacent fire.) -/
theorem c2_rejected_actions_leave_board_witness :
    (((FireTowerGame.init .N).add_wind_fire ⟨0, 0⟩).board = (FireTowerGame.init .N).board ∧
      ((FireTowerGame.init .N).dozer_line ⟨7, 7⟩).board = (FireTowerGame.init .N).board ∧
      ((FireTowerGame.init .N).scratch_line ⟨7, 7⟩).board = (FireTowerGame.init .N).board ∧
      ((FireTowerGame.init .N).de_re_forest ⟨7, 7⟩).board = (FireTowerGame.init .N).board) ∧
    (((FireTowerGame.init .N).flare_up ⟨0, 0⟩).board = (FireTowerGame.init .N).board ∧
      ((FireTowerGame.init .N).burning_snag ⟨5, 5⟩).board = (FireTowerGame.init .N).board ∧
      ((FireTowerGame.init .N).explosion ⟨0, 0⟩).board = (FireTowerGame.init .N).board ∧
      ((FireTowerGame.init .N).ember_phase_one ⟨0, 0⟩).board = (FireTowerGame.init .N).board ∧
      ((FireTowerGame.init .N).ember_phase_two ⟨0, 0⟩).board = (FireTowerGame.init .N).board) := by
  refine ⟨⟨?_, ?_, ?_, ?_⟩, ?_, ?_, ?_, ?_, ?_⟩
  · exact (c2_rejected_actions_leave_board (FireTowerGame.init .N) ⟨0, 0⟩).1 (by decide)
  · exact (c2_rejected_actions_leave_board (FireTowerGame.init .N) ⟨7, 7⟩).2.1 (by decide)
  · exact (c2_rejected_actions_leave_board (FireTowerGame.init .N) ⟨7, 7⟩).2.2.1 (by decide)
  · exact (c2_rejected_actions_leave_board (FireTowerGame.init .N) ⟨7, 7⟩).2.2.2.1 (by decide)
  · exact (c2_rejected_actions_leave_board (FireTowerGame.init .N) ⟨0, 0⟩).2.2.2.2.1 (by decide)
  · exact (c2_rejected_actions_leave_board (FireTowerGame.init .N) ⟨5, 5⟩).2.2.2.2.2.1 (by decide)
  · exact (c2_rejected_actions_leave_board (FireTowerGame.init .N) ⟨0, 0⟩).2.2.2.2.2.2.1
      (by decide)
  · exact (c2_rejected_actions_leave_board (FireTowerGame.init .N) ⟨0, 0⟩).2.2.2.2.2.2.2.1
      (by decide)
  · exact (c2_rejected_actions_leave_board (FireTowerGame.init .N) ⟨0, 0⟩).2.2.2.2.2.2.2.2
      (by decide)

/-! ## Claim C3 -/

theorem Board.on_board_of_get_ne (b : Board) (p : Point)
    (h : b.get p ≠ TileStatus.off_board) : Board.on_board p := by
  by_contra h2
  apply h
  unfold Board.get
  simp [h2]

/-- Claim C3 refuted as stated: on the fresh game with wind = South, the
basic wind fire action at `(8, 6)` checks the upwind cell
`(8, 6) - (0, 1) = (8, 5)`, which is `tree`, so the move is rejected and
`(8, 6)` stays `tree` (the spec's scenario names `(8, 7)`, which is the
downwind neighbour under a south wind). -/
theorem c3_counterexample :
    ((FireTowerGame.init .S).add_wind_fire ⟨8, 6⟩).board.get ⟨8, 6⟩ = TileStatus.tree := by
  decide

/-- Claim C3 (amended): basic wind fire ignites a tree target exactly
when the cell one wind vector upwind of the target
(`point - wind.as_vector()`) is fire; on the fresh game the scenario
holds with wind = North, whose upwind neighbour of `(8, 6)` is the
burning `(8, 7)`. -/
theorem c3_wind_fire_upwind :
    (∀ (g : FireTowerGame) (p : Point), g.board.get p = TileStatus.tree →
      ((g.add_wind_fire p).board.get p = TileStatus.fire ↔
        g.board.get (p - g.wind.as_vector) = TileStatus.fire)) ∧
    ((FireTowerGame.init .N).add_wind_fire ⟨8, 6⟩).board.get ⟨8, 6⟩ = TileStatus.fire := by
  constructor
  · intro g p htree
    by_cases h : wind_fire_legal g p
    · have hon : Board.on_board p := Board.on_board_of_get_ne g.board p (by rw [htree]; decide)
      unfold FireTowerGame.add_wind_fire
      rw [if_pos h]
      constructor
      · intro _
        exact h.2
      · intro _
        exact Board.get_set_same g.board p TileStatus.fire hon
    · unfold FireTowerGame.add_wind_fire
      rw [if_neg h]
      constructor
      · intro hfire
        exact absurd hfire (by rw [htree]; decide)
      · intro hup
        exact absurd ⟨htree, hup⟩ h
  · decide

/-- Witness for the amended C3 at a concrete input: `(8, 6)` is `tree`
on the fresh board and, with wind = North, its upwind neighbour
`(8, 7)` is fire, so the action ignites it. -/
theorem c3_wind_fire_upwind_witness :
    ((FireTowerGame.init .N).add_wind_fire ⟨8, 6⟩).board.get ⟨8, 6⟩ = TileStatus.fire := by
  exact (c3_wind_fire_upwind.1 (FireTowerGame.init .N) ⟨8, 6⟩ (by decide)).mpr (by decide)

/-! ## Claim C7 -/

theorem check_for_victory_orientation (g : FireTowerGame) :
    g.check_for_victory.orientation = g.orientation := by
  unfold FireTowerGame.check_for_victory
  split <;> rfl

theorem check_for_victory_action (g : FireTowerGame) :
    g.check_for_victory.action = g.action := by
  unfold FireTowerGame.check_for_victory
  split <;> rfl

/-- Claim C7 refuted as stated: selecting a different orientation-
sensitive action does not reset the orientation to any per-action
default.  Selecting scratch line on the fresh game (previous action:
wind fire) observes orientation `h`; selecting scratch line after dozer
line was selected twice (previous action: dozer line, orientation
toggled to `v`) observes orientation `v` — the same "different action"
selection yields two different orientations, so there is no reset to a
default: the single engine-wide flag simply persists. -/
theorem c7_counterexample :
    ((FireTowerGame.init .N).update .sl).action = ActionKind.scratchLine ∧
    ((FireTowerGame.init .N).update .sl).orientation = OrientationEnum.h ∧
    ((((FireTowerGame.init .N).update .dl).update .dl).update .sl).action =
      ActionKind.scratchLine ∧
    ((((FireTowerGame.init .N).update .dl).update .dl).update .sl).orientation =
      OrientationEnum.v := by
  refine ⟨by decide, by decide, by decide, by decide⟩

/-- Claim C7 (amended): selecting the same orientation-sensitive action
(dozer line, scratch line or flare-up) twice in a row flips the
orientation between horizontal and vertical, while selecting a different
action leaves the engine-wide orientation flag unchanged (there is no
per-action default; the flag is carried on the engine). -/
theorem c7_orientation_toggle (g : FireTowerGame) :
    ((g.update .dl).action = ActionKind.dozerLine ∧
      (g.update .sl).action = ActionKind.scratchLine ∧
      (g.update .fl).action = ActionKind.flareUp) ∧
    (g.action = ActionKind.dozerLine → (g.update .dl).orientation = g.orientation.flip) ∧
    (g.action = ActionKind.scratchLine → (g.update .sl).orientation = g.orientation.flip) ∧
    (g.action = ActionKind.flareUp → (g.update .fl).orientation = g.orientation.flip) ∧
    (g.action ≠ ActionKind.dozerLine → (g.update .dl).orientation = g.orientation) ∧
    (g.action ≠ ActionKind.scratchLine → (g.update .sl).orientation = g.orientation) ∧
    (g.action ≠ ActionKind.flareUp → (g.update .fl).orientation = g.orientation) ∧
    ((g.update .fire).orientation = g.orientation ∧
      (g.update .drf).orientation = g.orientation ∧
      (g.update .expl).orientation = g.orientation ∧
      (g.update .embr).orientation = g.orientation ∧
      (g.update .bsng).orientation = g.orientation) := by
  have horient : ∀ (g2 : FireTowerGame) (a : ActionKind),
      (g2.set_oriented_action a).orientation =
        if g2.action = a then g2.orientation.flip else g2.orientation := by
    intro g2 a
    unfold FireTowerGame.set_oriented_action
    split <;> rfl
  have haction : ∀ (g2 : FireTowerGame) (a : ActionKind),
      (g2.set_oriented_action a).action = a := by
    intro g2 a
    unfold FireTowerGame.set_oriented_action
    split <;> rfl
  refine ⟨⟨?_, ?_, ?_⟩, ?_, ?_, ?_, ?_, ?_, ?_, ?_, ?_, ?_, ?_, ?_⟩
  · rw [show g.update .dl = (g.set_oriented_action ActionKind.dozerLine).check_for_victory
      from rfl, check_for_victory_action, haction]
  · rw [show g.update .sl = (g.set_oriented_action ActionKind.scratchLine).check_for_victory
      from rfl, check_for_victory_action, haction]
  · rw [show g.update .fl = (g.set_oriented_action ActionKind.flareUp).check_for_victory
      from rfl, check_for_victory_action, haction]
  · intro h
    rw [show g.update .dl = (g.set_oriented_action ActionKind.dozerLine).check_for_victory
      from rfl, check_for_victory_orientation, horient, if_pos h]
  · intro h
    rw [show g.update .sl = (g.set_oriented_action ActionKind.scratchLine).check_for_victory
      from rfl, check_for_victory_orientation, horient, if_pos h]
  · intro h
    rw [show g.update .fl = (g.set_oriented_action ActionKind.flareUp).check_for_victory
      from rfl, check_for_victory_orientation, horient, if_pos h]
  · intro h
    rw [show g.update .dl = (g.set_oriented_action ActionKind.dozerLine).check_for_victory
      from rfl, check_for_victory_orientation, horient, if_neg h]
  · intro h
    rw [show g.update .sl = (g.set_oriented_action ActionKind.scratchLine).check_for_victory
      from rfl, check_for_victory_orientation, horient, if_neg h]
  · intro h
    rw [show g.update .fl = (g.set_oriented_action ActionKind.flareUp).check_for_victory
      from rfl, check_for_victory_orientation, horient, if_neg h]
  · exact check_for_victory_orientation _
  · exact check_for_victory_orientation _
  · exact check_for_victory_orientation _
  · exact check_for_victory_orientation _
  · exact check_for_victory_orientation _

/-- Witness for the amended C7 at concrete inputs: on the fresh game,
selecting dozer line once keeps orientation `h`, selecting it again
flips to `v`. -/
theorem c7_orientation_toggle_witness :
    ((FireTowerGame.init .N).update .dl).orientation = OrientationEnum.h ∧
    (((FireTowerGame.init .N).update .dl).update .dl).orientation = OrientationEnum.v := by
  constructor
  · exact (c7_orientation_toggle (FireTowerGame.init .N)).2.2.2.2.1 (by decide)
  · exact (c7_orientation_toggle ((FireTowerGame.init .N).update .dl)).2.1 (by decide)

/-! ## Claim C8 -/

/-- Claim C8: the ember move is a two-phase machine.  Phase one succeeds
exactly on a target that is fire, outside the eternal flame and outside
every tower: the target becomes `tree` and the stored action moves to
phase two (awaiting placement); any other target leaves the whole state
unchanged.  Phase two succeeds exactly on a `tree` target orthogonally
adjacent to fire: the target becomes `fire` and the stored action moves
to the neutral `no_action`; any other target leaves the whole state
unchanged (still awaiting placement). -/
theorem c8_ember_state_machine (g : FireTowerGame) (p : Point) :
    (ember_one_legal g p →
      (g.ember_phase_one p).board = g.board.set p TileStatus.tree ∧
        (g.ember_phase_one p).action = ActionKind.emberTwo) ∧
    (¬ ember_one_legal g p → g.ember_phase_one p = g) ∧
    (ember_two_legal g p →
      (g.ember_phase_two p).board = g.board.set p TileStatus.fire ∧
        (g.ember_phase_two p).action = ActionKind.noAction) ∧
    (¬ ember_two_legal g p → g.ember_phase_two p = g) := by
  refine ⟨?_, ?_, ?_, ?_⟩
  · intro h
    unfold FireTowerGame.ember_phase_one
    rw [if_pos h]
    exact ⟨rfl, rfl⟩
  · intro h
    unfold FireTowerGame.ember_phase_one
    rw [if_neg h]
  · intro h
    unfold FireTowerGame.ember_phase_two
    rw [if_pos h]
    exact ⟨rfl, rfl⟩
  · intro h
    unfold FireTowerGame.ember_phase_two
    rw [if_neg h]

/-- The concrete state used to witness a successful ember phase one: the
fresh board with an extra fire gem at `(0, 5)` (outside the eternal
flame and outside every tower). -/
def c8_state : FireTowerGame :=
  { FireTowerGame.init .N with board := init_board.set ⟨0, 5⟩ TileStatus.fire }

/-- Witness for C8 at concrete inputs: phase one succeeds at the lifted
gem `(0, 5)` and fails at the eternal-flame cell `(7, 7)`; phase two
succeeds at `(7, 6)` (tree next to the flame) and fails at the burning
`(7, 7)`. -/
theorem c8_ember_state_machine_witness :
    ((c8_state.ember_phase_one ⟨0, 5⟩).board = c8_state.board.set ⟨0, 5⟩ TileStatus.tree ∧
      (c8_state.ember_phase_one ⟨0, 5⟩).action = ActionKind.emberTwo) ∧
    c8_state.ember_phase_one ⟨7, 7⟩ = c8_state ∧
    ((c8_state.ember_phase_two ⟨7, 6⟩).board = c8_state.board.set ⟨7, 6⟩ TileStatus.fire ∧
      (c8_state.ember_phase_two ⟨7, 6⟩).action = ActionKind.noAction) ∧
    c8_state.ember_phase_two ⟨7, 7⟩ = c8_state := by
  refine ⟨(c8_ember_state_machine c8_state ⟨0, 5⟩).1 (by decide),
    (c8_ember_state_machine c8_state ⟨7, 7⟩).2.1 (by decide),
    (c8_ember_state_machine c8_state ⟨7, 6⟩).2.2.1 (by decide),
    (c8_ember_state_machine c8_state ⟨7, 7⟩).2.2.2 (by decide)⟩

/-! ## Claim C1 -/

theorem int_range_bounds (l u a : Int) (h : a ∈ int_range l u) : l ≤ a ∧ a < u := by
  unfold int_range at h
  simp only [List.mem_map, List.mem_range] at h
  obtain ⟨i, hi, rfl⟩ := h
  omega

theorem get_board_range_mem (xs ys : List Int) (q : Point) :
    q ∈ get_board_range xs ys ↔ q.x ∈ xs ∧ q.y ∈ ys := by
  unfold get_board_range
  simp only [List.mem_flatMap, List.mem_map]
  constructor
  · rintro ⟨x, hx, y, hy, rfl⟩
    exact ⟨hx, hy⟩
  · rintro ⟨hx, hy⟩
    exact ⟨q.x, hx, q.y, hy, rfl⟩

theorem tower_on_board (c : Corner) (q : Point) (h : q ∈ c.tower) : Board.on_board q := by
  unfold Corner.tower at h
  rw [get_board_range_mem] at h
  obtain ⟨hx, hy⟩ := h
  have hx2 : 0 ≤ q.x ∧ q.x < 16 := by
    split at hx <;>
      · have := int_range_bounds _ _ _ hx
        simp only [BOARD_SIZE] at this
        omega
  have hy2 : 0 ≤ q.y ∧ q.y < 16 := by
    split at hy <;>
      · have := int_range_bounds _ _ _ hy
        simp only [BOARD_SIZE] at this
        omega
  simp only [Board.on_board, BOARD_SIZE, decide_eq_true_eq]
  omega

theorem foldl_set_fire_get (l : List Point) (b : Board) (q : Point)
    (hl : ∀ r ∈ l, Board.on_board r) :
    (l.foldl (fun b r => b.set r TileStatus.fire) b).get q =
      if q ∈ l then TileStatus.fire else b.get q := by
  induction l generalizing b with
  | nil => simp
  | cons r rest ih =>
    simp only [List.foldl_cons]
    rw [ih (b.set r TileStatus.fire) (fun t ht => hl t (by simp [ht]))]
    by_cases hmem : q ∈ rest
    · simp [hmem]
    · by_cases hq : q = r
      · subst hq
        simp [hmem, Board.get_set_same b q TileStatus.fire (hl q (by simp))]
      · simp [hmem, hq, Board.get_set_ne b r q TileStatus.fire hq]

theorem burn_tower_get (b : Board) (c : Corner) (q : Point) :
    (burn_tower b c).get q = if q ∈ c.tower then TileStatus.fire else b.get q := by
  unfold burn_tower
  exact foldl_set_fire_get c.tower b q (fun r hr => tower_on_board c r hr)

theorem burn_tower_fire_mono (b : Board) (c : Corner) (q : Point)
    (h : b.get q = TileStatus.fire) : (burn_tower b c).get q = TileStatus.fire := by
  rw [burn_tower_get]
  split
  · rfl
  · exact h

theorem elim_pass_cons (b : Board) (pl : Player) (rest : List Player) :
    elim_pass b (pl :: rest) =
      if pl.active ∧ b.get pl.corner.point = TileStatus.fire then
        ((elim_pass (burn_tower b pl.corner) rest).1,
          { pl with active := false } :: (elim_pass (burn_tower b pl.corner) rest).2)
      else ((elim_pass b rest).1, pl :: (elim_pass b rest).2) := rfl

theorem elim_pass_fire_mono (ps : List Player) (b : Board) (q : Point)
    (h : b.get q = TileStatus.fire) : (elim_pass b ps).1.get q = TileStatus.fire := by
  induction ps generalizing b with
  | nil => exact h
  | cons pl rest ih =>
    rw [elim_pass_cons]
    split
    · exact ih (burn_tower b pl.corner) (burn_tower_fire_mono b pl.corner q h)
    · exact ih b h

theorem elim_pass_length (ps : List Player) (b : Board) :
    (elim_pass b ps).2.length = ps.length := by
  induction ps generalizing b with
  | nil => rfl
  | cons pl rest ih =>
    rw [elim_pass_cons]
    split
    · simp [ih]
    · simp [ih]

/-- A corner's anchor cell lies in another corner's tower only when the
two anchors coincide (a tower only contains the extreme cell it is
anchored at). -/
theorem corner_point_mem_tower :
    ∀ c c2 : Corner, c2.point ∈ c.tower → c2.point = c.point := by
  decide

/-- The elimination pass of `check_for_victory`, positionally: an active
player whose home is fire at the start of the pass comes out marked
inactive with their whole tower on fire; any other player comes out
unchanged. -/
theorem elim_pass_spec (ps : List Player) (b : Board) :
    ∀ pr ∈ ps.zip (elim_pass b ps).2,
      (pr.1.active = true ∧ b.get pr.1.corner.point = TileStatus.fire →
        pr.2 = { pr.1 with active := false } ∧
          ∀ q ∈ pr.1.corner.tower, (elim_pass b ps).1.get q = TileStatus.fire) ∧
      (¬(pr.1.active = true ∧ b.get pr.1.corner.point = TileStatus.fire) → pr.2 = pr.1) := by
  induction ps generalizing b with
  | nil =>
    intro pr hpr
    simp at hpr
  | cons pl rest ih =>
    intro pr hpr
    rw [elim_pass_cons] at hpr ⊢
    by_cases hc : pl.active = true ∧ b.get pl.corner.point = TileStatus.fire
    · rw [if_pos hc] at hpr ⊢
      rcases List.mem_cons.mp hpr with rfl | htail
      · constructor
        · intro _
          refine ⟨rfl, ?_⟩
          intro q hq
          apply elim_pass_fire_mono
          rw [burn_tower_get, if_pos hq]
        · intro hn
          exact absurd hc hn
      · have hih := ih (burn_tower b pl.corner) pr htail
        constructor
        · intro hp
          exact hih.1 ⟨hp.1, burn_tower_fire_mono b pl.corner _ hp.2⟩
        · intro hn
          apply hih.2
          rintro ⟨ha, h2⟩
          apply hn
          refine ⟨ha, ?_⟩
          rw [burn_tower_get] at h2
          by_cases hm : pr.1.corner.point ∈ pl.corner.tower
          · rw [corner_point_mem_tower pl.corner pr.1.corner hm]
            exact hc.2
          · rw [if_neg hm] at h2
            exact h2
    · rw [if_neg hc] at hpr ⊢
      rcases List.mem_cons.mp hpr with rfl | htail
      · exact ⟨fun hp => absurd hp hc, fun _ => rfl⟩
      · exact ih b pr htail

theorem check_for_victory_board (g : FireTowerGame) :
    g.check_for_victory.board = (elim_pass g.board g.players).1 := by
  unfold FireTowerGame.check_for_victory
  split <;> rfl

theorem check_for_victory_players (g : FireTowerGame) :
    g.check_for_victory.players = (elim_pass g.board g.players).2 := by
  unfold FireTowerGame.check_for_victory
  split <;> rfl

theorem check_for_victory_active (g : FireTowerGame) :
    g.check_for_victory.active =
      if ((elim_pass g.board g.players).2.filter (fun pl => pl.active)).length = 1 then false
      else g.active := by
  unfold FireTowerGame.check_for_victory
  by_cases h : ((elim_pass g.board g.players).2.filter (fun pl => pl.active)).length = 1
  · rw [if_pos h, if_pos h]
  · rw [if_neg h, if_neg h]

/-- Claim C1 (amended): victory detection runs after every command
(every `update` ends in `check_for_victory`) and checks every
currently-active player once: each active player whose home coordinate
is fire is marked inactive with all 9 coordinates of their tower set to
fire, and every other player is untouched; after the full pass the game
ends exactly when exactly one active player remains (a pass leaving zero
active players does not end the game). -/
theorem c1_victory_pass (g : FireTowerGame) :
    (∀ e : Event, ∃ g2 : FireTowerGame, g.update e = g2.check_for_victory) ∧
    g.check_for_victory.players.length = g.players.length ∧
    (∀ pr ∈ g.players.zip g.check_for_victory.players,
      (pr.1.active = true ∧ g.board.get pr.1.corner.point = TileStatus.fire →
        pr.2 = { pr.1 with active := false } ∧
          ∀ q ∈ pr.1.corner.tower, g.check_for_victory.board.get q = TileStatus.fire) ∧
      (¬(pr.1.active = true ∧ g.board.get pr.1.corner.point = TileStatus.fire) →
        pr.2 = pr.1)) ∧
    (g.active = true →
      (g.check_for_victory.active = false ↔
        (g.check_for_victory.players.filter (fun pl => pl.active)).length = 1)) := by
  refine ⟨?_, ?_, ?_, ?_⟩
  · intro e
    cases e <;> exact ⟨_, rfl⟩
  · rw [check_for_victory_players]
    exact elim_pass_length g.players g.board
  · rw [check_for_victory_players, check_for_victory_board]
    exact elim_pass_spec g.players g.board
  · intro hact
    rw [check_for_victory_players, check_for_victory_active]
    by_cases h : ((elim_pass g.board g.players).2.filter (fun pl => pl.active)).length = 1
    · rw [if_pos h]
      exact ⟨fun _ => h, fun _ => rfl⟩
    · rw [if_neg h, hact]
      simp [h]

/-- The concrete state used to witness C1: the fresh game with the
north-west home `(0, 0)` set on fire (the spec's own elimination
scenario). -/
def c1_state : FireTowerGame :=
  { FireTowerGame.init .N with board := init_board.set ⟨0, 0⟩ TileStatus.fire }

/-- Witness for the amended C1 at a concrete input: running the victory
scan on `c1_state` marks the north-west player inactive, burns all 9
cells of their tower, and the game-over flag agrees with the
one-remaining-player test (three players remain, so the game goes on). -/
theorem c1_victory_pass_witness :
    ((⟨"Player 1", ⟨WindDir.N, WindDir.W⟩, false⟩ : Player) =
      { (⟨"Player 1", ⟨WindDir.N, WindDir.W⟩, true⟩ : Player) with active := false }) ∧
    (∀ q ∈ (⟨WindDir.N, WindDir.W⟩ : Corner).tower,
      c1_state.check_for_victory.board.get q = TileStatus.fire) ∧
    (c1_state.check_for_victory.active = false ↔
      (c1_state.check_for_victory.players.filter (fun pl => pl.active)).length = 1) := by
  have h := (c1_victory_pass c1_state).2.2.1
    ((⟨"Player 1", ⟨WindDir.N, WindDir.W⟩, true⟩ : Player),
      (⟨"Player 1", ⟨WindDir.N, WindDir.W⟩, false⟩ : Player)) (by decide)
  have h2 := h.1 (by decide)
  exact ⟨h2.1, h2.2, (c1_victory_pass c1_state).2.2.2 (by decide)⟩

/-- The concrete state refuting C1 as stated: all four homes on fire at
once. -/
def c1_cex : FireTowerGame :=
  { FireTowerGame.init .N with board :=
      (((init_board.set ⟨0, 0⟩ TileStatus.fire).set ⟨15, 0⟩ TileStatus.fire).set
        ⟨0, 15⟩ TileStatus.fire).set ⟨15, 15⟩ TileStatus.fire }

/-- Claim C1 refuted as stated: a victory scan on a state where all four
homes burn leaves zero active players — at most one, as the claim
requires — yet the game does not end: `check_for_victory` ends the game
only when the remaining count is exactly one. -/
theorem c1_counterexample :
    c1_cex.active = true ∧
    (c1_cex.check_for_victory.players.filter (fun pl => pl.active)).length = 0 ∧
    c1_cex.check_for_victory.active = true := by
  refine ⟨rfl, by decide, by decide⟩

/-! ## Claim C4 -/

/-- All eternal-flame cells are on fire (the invariant of claim C4). -/
def FlameFire (b : Board) : Prop :=
  ∀ p ∈ eternal_flame, b.get p = TileStatus.fire

instance (b : Board) : Decidable (FlameFire b) := by
  unfold FlameFire
  exact inferInstance

theorem flame_set_fire {b : Board} (h : FlameFire b) (q : Point) :
    FlameFire (b.set q TileStatus.fire) := by
  intro p hp
  rw [Board.get_set]
  split
  · rfl
  · exact h p hp

theorem not_mem_flame_of_get_ne {b : Board} (h : FlameFire b) {q : Point}
    (hne : b.get q ≠ TileStatus.fire) : q ∉ eternal_flame := by
  intro hmem
  exact hne (h q hmem)

theorem flame_set_not_mem {b : Board} {q : Point} (hq : q ∉ eternal_flame)
    (h : FlameFire b) (v : TileStatus) : FlameFire (b.set q v) := by
  intro p hp
  rw [Board.get_set]
  split
  · rename_i hc
    rw [hc.1] at hp
    exact absurd hp hq
  · exact h p hp

theorem flame_foldl_set_fire {b : Board} (h : FlameFire b) (l : List Point) :
    FlameFire (l.foldl (fun b q => b.set q TileStatus.fire) b) := by
  induction l generalizing b with
  | nil => exact h
  | cons r rest ih => exact ih (flame_set_fire h r)

theorem flame_foldl_cond_fire {b : Board} (h : FlameFire b) (l : List Point) :
    FlameFire (l.foldl
      (fun b q => if b.get q = TileStatus.tree then b.set q TileStatus.fire else b) b) := by
  induction l generalizing b with
  | nil => exact h
  | cons r rest ih =>
    simp only [List.foldl_cons]
    split
    · exact ih (flame_set_fire h r)
    · exact ih h

theorem flame_elim_pass {b : Board} (h : FlameFire b) (ps : List Player) :
    FlameFire (elim_pass b ps).1 := by
  induction ps generalizing b with
  | nil => exact h
  | cons pl rest ih =>
    rw [elim_pass_cons]
    split
    · exact ih (flame_foldl_set_fire h pl.corner.tower)
    · exact ih h

theorem flame_check_for_victory {g : FireTowerGame} (h : FlameFire g.board) :
    FlameFire g.check_for_victory.board := by
  rw [check_for_victory_board]
  exact flame_elim_pass h g.players

theorem flame_add_wind_fire {g : FireTowerGame} (h : FlameFire g.board) (p : Point) :
    FlameFire (g.add_wind_fire p).board := by
  unfold FireTowerGame.add_wind_fire
  by_cases hl : wind_fire_legal g p
  · rw [if_pos hl]
    exact flame_set_fire h p
  · rw [if_neg hl]
    exact h

theorem flame_add_firebreak_cluster {g : FireTowerGame} (h : FlameFire g.board)
    (c : Point × Point) : FlameFire (g.add_firebreak_cluster c).board := by
  unfold FireTowerGame.add_firebreak_cluster
  by_cases hl : cluster_legal g c
  · rw [if_pos hl]
    have h1 := not_mem_flame_of_get_ne h (q := c.1) (by rw [hl.1.1]; decide)
    have h2 := not_mem_flame_of_get_ne h (q := c.2) (by rw [hl.2.1]; decide)
    exact flame_set_not_mem h2 (flame_set_not_mem h1 h TileStatus.firebreak) TileStatus.firebreak
  · rw [if_neg hl]
    exact h

theorem flame_de_re_forest {g : FireTowerGame} (h : FlameFire g.board) (p : Point) :
    FlameFire (g.de_re_forest p).board := by
  unfold FireTowerGame.de_re_forest
  by_cases h1 : g.validate_firebreak p
  · rw [if_pos h1]
    exact flame_set_not_mem (not_mem_flame_of_get_ne h (by rw [h1.1]; decide)) h
      TileStatus.firebreak
  · rw [if_neg h1]
    by_cases h2 : g.board.get p = TileStatus.firebreak
    · rw [if_pos h2]
      exact flame_set_not_mem (not_mem_flame_of_get_ne h (by rw [h2]; decide)) h TileStatus.tree
    · rw [if_neg h2]
      exact h

theorem flame_flare_up {g : FireTowerGame} (h : FlameFire g.board) (p : Point) :
    FlameFire (g.flare_up p).board := by
  unfold FireTowerGame.flare_up
  by_cases hl : flare_legal g p
  · rw [if_pos hl]
    exact flame_foldl_set_fire h _
  · rw [if_neg hl]
    exact h

theorem flame_burning_snag {g : FireTowerGame} (h : FlameFire g.board) (p : Point) :
    FlameFire (g.burning_snag p).board := by
  unfold FireTowerGame.burning_snag
  by_cases hl : snag_legal g p
  · rw [if_pos hl]
    exact flame_foldl_cond_fire h _
  · rw [if_neg hl]
    exact h

theorem flame_explosion {g : FireTowerGame} (h : FlameFire g.board) (p : Point) :
    FlameFire (g.explosion p).board := by
  unfold FireTowerGame.explosion
  by_cases hl : explosion_legal g p
  · rw [if_pos hl]
    exact flame_foldl_cond_fire (flame_set_not_mem hl.2.1 h TileStatus.firebreak) _
  · rw [if_neg hl]
    exact h

theorem flame_ember_phase_one {g : FireTowerGame} (h : FlameFire g.board) (p : Point) :
    FlameFire (g.ember_phase_one p).board := by
  unfold FireTowerGame.ember_phase_one
  by_cases hl : ember_one_legal g p
  · rw [if_pos hl]
    exact flame_set_not_mem hl.2.1 h TileStatus.tree
  · rw [if_neg hl]
    exact h

theorem flame_ember_phase_two {g : FireTowerGame} (h : FlameFire g.board) (p : Point) :
    FlameFire (g.ember_phase_two p).board := by
  unfold FireTowerGame.ember_phase_two
  by_cases hl : ember_two_legal g p
  · rw [if_pos hl]
    exact flame_set_fire h p
  · rw [if_neg hl]
    exact h

theorem flame_run_action {g : FireTowerGame} (h : FlameFire g.board) (p : Point) :
    FlameFire (g.run_action p).board := by
  unfold FireTowerGame.run_action
  cases g.action
  · exact flame_add_wind_fire h p
  · exact flame_add_firebreak_cluster h _
  · exact flame_add_firebreak_cluster h _
  · exact flame_de_re_forest h p
  · exact flame_flare_up h p
  · exact flame_burning_snag h p
  · exact flame_explosion h p
  · exact flame_ember_phase_one h p
  · exact flame_ember_phase_two h p
  · exact h

theorem set_oriented_action_board (g : FireTowerGame) (a : ActionKind) :
    (g.set_oriented_action a).board = g.board := by
  unfold FireTowerGame.set_oriented_action
  split <;> rfl

theorem flame_update {g : FireTowerGame} (h : FlameFire g.board) (e : Event) :
    FlameFire (g.update e).board := by
  cases e
  case point p => exact flame_check_for_victory (flame_run_action h p)
  case wind w =>
    apply flame_check_for_victory
    by_cases hc : w ∈ valid_winds g.players ∧ w ≠ g.wind
    · show FlameFire (if w ∈ valid_winds g.players ∧ w ≠ g.wind then
        { g with wind := w } else g).board
      rw [if_pos hc]
      exact h
    · show FlameFire (if w ∈ valid_winds g.players ∧ w ≠ g.wind then
        { g with wind := w } else g).board
      rw [if_neg hc]
      exact h
  case fire => exact flame_check_for_victory h
  case dl =>
    apply flame_check_for_victory
    rw [set_oriented_action_board]
    exact h
  case sl =>
    apply flame_check_for_victory
    rw [set_oriented_action_board]
    exact h
  case drf => exact flame_check_for_victory h
  case fl =>
    apply flame_check_for_victory
    rw [set_oriented_action_board]
    exact h
  case expl => exact flame_check_for_victory h
  case embr => exact flame_check_for_victory h
  case bsng => exact flame_check_for_victory h
  case quit => exact flame_check_for_victory h
  case other => exact flame_check_for_victory h

theorem flame_foldl_update {evs : List Event} {g : FireTowerGame} (h : FlameFire g.board) :
    FlameFire (evs.foldl FireTowerGame.update g).board := by
  induction evs generalizing g with
  | nil => exact h
  | cons e rest ih => exact ih (flame_update h e)

/-- Claim C4: in every reachable game state, every cell of the eternal
flame (the central 2x2 block) has status fire — no action ever converts
an eternal-flame cell to another status. -/
theorem c4_eternal_flame_invariant (g : FireTowerGame) (h : Reachable g) :
    ∀ p ∈ eternal_flame, g.board.get p = TileStatus.fire := by
  obtain ⟨w0, evs, rfl⟩ := h
  have hinit : FlameFire init_board := by decide
  exact flame_foldl_update hinit

/-- Witness for C4 at a concrete input: the state reached by one basic
wind fire at `(7, 6)` is reachable and its eternal-flame cell `(7, 7)`
is on fire. -/
theorem c4_eternal_flame_invariant_witness :
    Reachable ([Event.point ⟨7, 6⟩].foldl FireTowerGame.update (FireTowerGame.init .N)) ∧
    ([Event.point ⟨7, 6⟩].foldl FireTowerGame.update (FireTowerGame.init .N)).board.get ⟨7, 7⟩ =
      TileStatus.fire := by
  refine ⟨⟨.N, [Event.point ⟨7, 6⟩], rfl⟩, ?_⟩
  exact c4_eternal_flame_invariant _ ⟨.N, [Event.point ⟨7, 6⟩], rfl⟩ ⟨7, 7⟩ (by decide)

/-! ## Claim C5 -/

theorem valid_winds_mem (players : List Player) (w : WindDir) :
    w ∈ valid_winds players ↔
      ∃ pl ∈ players, pl.active = true ∧ (w = pl.corner.y_wind ∨ w = pl.corner.x_wind) := by
  unfold valid_winds
  simp only [List.mem_flatMap, List.mem_filter, List.mem_cons, List.mem_singleton,
    List.not_mem_nil, or_false]
  constructor
  · rintro ⟨pl, ⟨hmem, hact⟩, hw⟩
    exact ⟨pl, hmem, by simpa using hact, hw⟩
  · rintro ⟨pl, hmem, hact, hw⟩
    exact ⟨pl, ⟨hmem, by simpa using hact⟩, hw⟩

theorem valid_winds_of_active (players : List Player) (pl : Player)
    (hmem : pl ∈ players) (hact : pl.active = true) :
    pl.corner.y_wind ∈ valid_winds players :=
  (valid_winds_mem players pl.corner.y_wind).mpr ⟨pl, hmem, hact, Or.inl rfl⟩

theorem roll_wind_aux_ok (valid : List WindDir) (old : Option WindDir) (draws : List Nat)
    (w : WindDir) (h : roll_wind_aux valid old draws = Except.ok (some w)) :
    w ∈ valid ∧ some w ≠ old := by
  induction draws with
  | nil => simp [roll_wind_aux] at h
  | cons i rest ih =>
    unfold roll_wind_aux at h
    split at h
    · split at h
      · exact ih h
      · rename_i hne
        rw [Except.ok.injEq, Option.some.injEq] at h
        subst h
        exact ⟨List.get_mem _ _ _, hne⟩
    · exact absurd h (by simp)

theorem roll_wind_aux_no_error (valid : List WindDir) (old : Option WindDir)
    (draws : List Nat) (h : valid ≠ []) :
    roll_wind_aux valid old draws ≠ Except.error () := by
  induction draws with
  | nil => simp [roll_wind_aux]
  | cons i rest ih =>
    unfold roll_wind_aux
    rw [dif_pos (List.length_pos.mpr h)]
    split
    · exact ih
    · simp

theorem roll_wind_aux_error (valid : List WindDir) (old : Option WindDir)
    (draws : List Nat) (h : roll_wind_aux valid old draws = Except.error ()) : valid = [] := by
  by_contra hne
  exact roll_wind_aux_no_error valid old draws hne h

/-- Claim C5: for every roster and every outcome of the random draws,
whenever `roll_wind` returns it returns a direction drawn from the union
of the active players' two corner wind components and different from the
immediately previous wind value (which is stronger than the claim's
"whenever the valid set has more than one member"), and the
`random.choice` failure on an empty valid set occurs exactly when no
player is active. -/
theorem c5_roll_wind (players : List Player) (old : Option WindDir) (draws : List Nat) :
    (∀ w : WindDir, roll_wind players old draws = Except.ok (some w) →
      (∃ pl ∈ players, pl.active = true ∧
        (w = pl.corner.y_wind ∨ w = pl.corner.x_wind)) ∧ some w ≠ old) ∧
    ((∃ pl ∈ players, pl.active = true) → roll_wind players old draws ≠ Except.error ()) ∧
    (roll_wind players old draws = Except.error () → ∀ pl ∈ players, pl.active = false) := by
  refine ⟨?_, ?_, ?_⟩
  · intro w h
    have h2 := roll_wind_aux_ok _ _ _ w h
    exact ⟨(valid_winds_mem players w).mp h2.1, h2.2⟩
  · rintro ⟨pl, hmem, hact⟩
    apply roll_wind_aux_no_error
    intro hempty
    have hm := valid_winds_of_active players pl hmem hact
    rw [hempty] at hm
    simp at hm
  · intro h pl hmem
    cases hpa : pl.active
    · rfl
    · have hm := valid_winds_of_active players pl hmem hpa
      unfold roll_wind at h
      rw [roll_wind_aux_error _ _ _ h] at hm
      simp at hm

/-- Witness for C5 at concrete inputs: on the default roster with
previous wind North, the draw sequence `[1]` returns West — a wind of an
active player's corner, different from North — and the call cannot raise
since players are active. -/
theorem c5_roll_wind_witness :
    roll_wind init_players (some WindDir.N) [1] = Except.ok (some WindDir.W) ∧
    (∃ pl ∈ init_players, pl.active = true ∧
      (WindDir.W = pl.corner.y_wind ∨ WindDir.W = pl.corner.x_wind)) ∧
    some WindDir.W ≠ some WindDir.N ∧
    roll_wind init_players (some WindDir.N) [1] ≠ Except.error () := by
  have h := (c5_roll_wind init_players (some WindDir.N) [1]).1 WindDir.W rfl
  refine ⟨rfl, h.1, h.2, ?_⟩
  exact (c5_roll_wind init_players (some WindDir.N) [1]).2.1
    ⟨⟨"Player 1", ⟨WindDir.N, WindDir.W⟩, true⟩, by decide, rfl⟩

/-! ## Claim C6 -/

theorem get_players_aux_length :
    ∀ (slots : List (Option Player)) (order : List Corner) (i : Nat) (ps : List Player),
      get_players_aux slots order i = some ps → ps.length = slots.length := by
  intro slots
  induction slots with
  | nil =>
    intro order i ps h
    unfold get_players_aux at h
    rw [Option.some.injEq] at h
    subst h
    rfl
  | cons s rest ih =>
    intro order i ps h
    cases s with
    | some p =>
      unfold get_players_aux at h
      obtain ⟨ps2, hps2, rfl⟩ := Option.map_eq_some'.mp h
      simp [ih order (i + 1) ps2 hps2]
    | none =>
      cases order with
      | nil =>
        unfold get_players_aux at h
        cases h
      | cons c cs =>
        unfold get_players_aux at h
        obtain ⟨ps2, hps2, rfl⟩ := Option.map_eq_some'.mp h
        simp [ih cs (i + 1) ps2 hps2]

theorem get_players_aux_corners :
    ∀ (slots : List (Option Player)) (order : List Corner) (i : Nat) (ps : List Player),
      get_players_aux slots order i = some ps →
      ∀ pl ∈ ps, pl.corner ∈ taken_corners slots ∨ pl.corner ∈ order := by
  intro slots
  induction slots with
  | nil =>
    intro order i ps h pl hpl
    unfold get_players_aux at h
    rw [Option.some.injEq] at h
    subst h
    simp at hpl
  | cons s rest ih =>
    intro order i ps h pl hpl
    cases s with
    | some p =>
      unfold get_players_aux at h
      obtain ⟨ps2, hps2, rfl⟩ := Option.map_eq_some'.mp h
      rcases List.mem_cons.mp hpl with rfl | htail
      · exact Or.inl (List.mem_cons_self _ _)
      · rcases ih order (i + 1) ps2 hps2 pl htail with hin | hin
        · exact Or.inl (List.mem_cons_of_mem _ hin)
        · exact Or.inr hin
    | none =>
      cases order with
      | nil =>
        unfold get_players_aux at h
        cases h
      | cons c cs =>
        unfold get_players_aux at h
        obtain ⟨ps2, hps2, rfl⟩ := Option.map_eq_some'.mp h
        rcases List.mem_cons.mp hpl with rfl | htail
        · exact Or.inr (List.mem_cons_self _ _)
        · rcases ih cs (i + 1) ps2 hps2 pl htail with hin | hin
          · exact Or.inl hin
          · exact Or.inr (List.mem_cons_of_mem _ hin)

theorem get_players_aux_nodup :
    ∀ (slots : List (Option Player)) (order : List Corner) (i : Nat) (ps : List Player),
      order.Nodup → (taken_corners slots).Nodup →
      (∀ c ∈ order, c ∉ taken_corners slots) →
      get_players_aux slots order i = some ps → (ps.map Player.corner).Nodup := by
  intro slots
  induction slots with
  | nil =>
    intro order i ps _ _ _ h
    unfold get_players_aux at h
    rw [Option.some.injEq] at h
    subst h
    simp
  | cons s rest ih =>
    intro order i ps hord htaken hdisj h
    cases s with
    | some p =>
      unfold get_players_aux at h
      obtain ⟨ps2, hps2, rfl⟩ := Option.map_eq_some'.mp h
      have htk : taken_corners (some p :: rest) = p.corner :: taken_corners rest := rfl
      rw [htk] at htaken hdisj
      rw [List.nodup_cons] at htaken
      simp only [List.map_cons, List.nodup_cons]
      constructor
      · intro hmem
        rw [List.mem_map] at hmem
        obtain ⟨pl, hpl, hc⟩ := hmem
        rcases get_players_aux_corners rest order (i + 1) ps2 hps2 pl hpl with hin | hin
        · exact htaken.1 (hc ▸ hin)
        · exact hdisj pl.corner hin (by rw [hc]; exact List.mem_cons_self _ _)
      · exact ih order (i + 1) ps2 hord htaken.2
          (fun c hc hmem => hdisj c hc (List.mem_cons_of_mem _ hmem)) hps2
    | none =>
      cases order with
      | nil =>
        unfold get_players_aux at h
        cases h
      | cons c cs =>
        unfold get_players_aux at h
        obtain ⟨ps2, hps2, rfl⟩ := Option.map_eq_some'.mp h
        have htk : taken_corners (none :: rest) = taken_corners rest := rfl
        rw [htk] at htaken hdisj
        rw [List.nodup_cons] at hord
        simp only [List.map_cons, List.nodup_cons]
        constructor
        · intro hmem
          rw [List.mem_map] at hmem
          obtain ⟨pl, hpl, hc⟩ := hmem
          rcases get_players_aux_corners rest cs (i + 1) ps2 hps2 pl hpl with hin | hin
          · exact hdisj c (List.mem_cons_self _ _) (hc ▸ hin)
          · exact hord.1 (hc ▸ hin)
        · exact ih cs (i + 1) ps2 hord.2 htaken
            (fun d hd hmem => hdisj d (List.mem_cons_of_mem _ hd) hmem) hps2

theorem get_players_aux_keep :
    ∀ (slots : List (Option Player)) (order : List Corner) (i : Nat) (ps : List Player),
      get_players_aux slots order i = some ps →
      ∀ (j : Nat) (h1 : j < slots.length) (h2 : j < ps.length) (pl : Player),
        slots.get ⟨j, h1⟩ = some pl → ps.get ⟨j, h2⟩ = pl := by
  intro slots
  induction slots with
  | nil =>
    intro order i ps h j h1
    simp at h1
  | cons s rest ih =>
    intro order i ps h j h1 h2 pl hslot
    cases s with
    | some p =>
      unfold get_players_aux at h
      obtain ⟨ps2, hps2, rfl⟩ := Option.map_eq_some'.mp h
      cases j with
      | zero =>
        have hp : p = pl := by simpa using hslot
        simpa using hp
      | succ k =>
        have hb1 : k < rest.length := Nat.succ_lt_succ_iff.mp (by simpa using h1)
        have hb2 : k < ps2.length := Nat.succ_lt_succ_iff.mp (by simpa using h2)
        exact ih order (i + 1) ps2 hps2 k hb1 hb2 pl (by simpa using hslot)
    | none =>
      cases order with
      | nil =>
        unfold get_players_aux at h
        cases h
      | cons c cs =>
        unfold get_players_aux at h
        obtain ⟨ps2, hps2, rfl⟩ := Option.map_eq_some'.mp h
        cases j with
        | zero => simp at hslot
        | succ k =>
          have hb1 : k < rest.length := Nat.succ_lt_succ_iff.mp (by simpa using h1)
          have hb2 : k < ps2.length := Nat.succ_lt_succ_iff.mp (by simpa using h2)
          exact ih cs (i + 1) ps2 hps2 k hb1 hb2 pl (by simpa using hslot)

/-- Claim C6 (amended): roster construction with distinct supplied
corners never yields two players bound to the same corner — supplied
players keep their slots and corners, and unfilled slots receive default
players bound, one each without repetition, to the remaining untaken
corners in the iteration order of the Python set
`{*CORNERS} - taken_corners` (an unspecified order, not necessarily
NW, NE, SE, SW).  Duplicate corners among supplied players are *not*
rejected (see the counterexample), so distinctness is guaranteed only
when the supplied corners are distinct. -/
theorem c6_roster_corners (slots : List (Option Player)) (order : List Corner)
    (ps : List Player) (hord : remaining_order slots order)
    (htaken : (taken_corners slots).Nodup)
    (h : get_players slots order = some ps) :
    (ps.map Player.corner).Nodup ∧ ps.length = slots.length ∧
      (∀ (j : Nat) (h1 : j < slots.length) (h2 : j < ps.length) (pl : Player),
        slots.get ⟨j, h1⟩ = some pl → ps.get ⟨j, h2⟩ = pl) :=
  ⟨get_players_aux_nodup slots order 0 ps hord.1 htaken hord.2.2.1 h,
    get_players_aux_length slots order 0 ps h,
    get_players_aux_keep slots order 0 ps h⟩

/-- Claim C6 refuted as stated: two supplied players claiming the same
corner are not rejected at build time — `get_players` succeeds and both
players keep the duplicated corner (the Python code raises no error; the
set of taken corners merely collapses the duplicate). -/
theorem c6_counterexample :
    get_players
        [some ⟨"A", ⟨WindDir.N, WindDir.W⟩, true⟩, some ⟨"B", ⟨WindDir.N, WindDir.W⟩, true⟩]
        [⟨WindDir.N, WindDir.E⟩, ⟨WindDir.S, WindDir.E⟩, ⟨WindDir.S, WindDir.W⟩] =
      some [⟨"A", ⟨WindDir.N, WindDir.W⟩, true⟩, ⟨"B", ⟨WindDir.N, WindDir.W⟩, true⟩] ∧
    remaining_order
        [some ⟨"A", ⟨WindDir.N, WindDir.W⟩, true⟩, some ⟨"B", ⟨WindDir.N, WindDir.W⟩, true⟩]
        [⟨WindDir.N, WindDir.E⟩, ⟨WindDir.S, WindDir.E⟩, ⟨WindDir.S, WindDir.W⟩] ∧
    (⟨"A", ⟨WindDir.N, WindDir.W⟩, true⟩ : Player).corner =
      (⟨"B", ⟨WindDir.N, WindDir.W⟩, true⟩ : Player).corner := by
  refine ⟨rfl, by decide, rfl⟩

/-- Witness for the amended C6 at a concrete input: one supplied player
at the north-west corner plus one empty slot yields a duplicate-free
roster of length 2 in which the supplied player keeps slot 0. -/
theorem c6_roster_corners_witness :
    get_players [some ⟨"A", ⟨WindDir.N, WindDir.W⟩, true⟩, none]
        [⟨WindDir.N, WindDir.E⟩, ⟨WindDir.S, WindDir.E⟩, ⟨WindDir.S, WindDir.W⟩] =
      some [⟨"A", ⟨WindDir.N, WindDir.W⟩, true⟩, ⟨"Player 2", ⟨WindDir.N, WindDir.E⟩, true⟩] ∧
    (([⟨"A", ⟨WindDir.N, WindDir.W⟩, true⟩,
        ⟨"Player 2", ⟨WindDir.N, WindDir.E⟩, true⟩] : List Player).map Player.corner).Nodup ∧
    ([⟨"A", ⟨WindDir.N, WindDir.W⟩, true⟩,
        ⟨"Player 2", ⟨WindDir.N, WindDir.E⟩, true⟩] : List Player).length = 2 ∧
    ([⟨"A", ⟨WindDir.N, WindDir.W⟩, true⟩,
        ⟨"Player 2", ⟨WindDir.N, WindDir.E⟩, true⟩] : List Player).get ⟨0, by decide⟩ =
      ⟨"A", ⟨WindDir.N, WindDir.W⟩, true⟩ := by
  have h := c6_roster_corners [some ⟨"A", ⟨WindDir.N, WindDir.W⟩, true⟩, none]
    [⟨WindDir.N, WindDir.E⟩, ⟨WindDir.S, WindDir.E⟩, ⟨WindDir.S, WindDir.W⟩]
    [⟨"A", ⟨WindDir.N, WindDir.W⟩, true⟩, ⟨"Player 2", ⟨WindDir.N, WindDir.E⟩, true⟩]
    (by decide) (by decide) rfl
  exact ⟨rfl, h.1, h.2.1, h.2.2 0 (by decide) (by decide) _ rfl⟩

/-! ## Claim C10 -/

/-- The command sequence driving fire from the eternal flame into the
north-west tower: with wind North, wind fire walks up column 7 to
`(7, 0)`; the wind is rolled to West and wind fire walks along row 0 to
the north-west home `(0, 0)`, whose ignition eliminates that player and
burns the whole north-west tower; finally the explosion action is
selected. -/
def c10_events : List Event :=
  [Event.point ⟨7, 6⟩, Event.point ⟨7, 5⟩, Event.point ⟨7, 4⟩, Event.point ⟨7, 3⟩,
   Event.point ⟨7, 2⟩, Event.point ⟨7, 1⟩, Event.point ⟨7, 0⟩, Event.wind WindDir.W,
   Event.point ⟨6, 0⟩, Event.point ⟨5, 0⟩, Event.point ⟨4, 0⟩, Event.point ⟨3, 0⟩,
   Event.point ⟨2, 0⟩, Event.point ⟨1, 0⟩, Event.point ⟨0, 0⟩, Event.expl]

/-- The reachable state in which a burnt tower cell is a legal explosion
target. -/
def c10_pre : FireTowerGame :=
  c10_events.foldl FireTowerGame.update (FireTowerGame.init WindDir.N)

set_option maxRecDepth 40000 in
/-- Claim C10: explosion's legality predicate does not exempt tower
cells.  Firebreak validation and ember phase one do exclude tower cells
(first two conjuncts), but in the reachable state `c10_pre` — obtained
after an elimination burnt the north-west tower — the tower cell
`(2, 2)` is fire and a legal explosion target, and applying explosion
there (directly, and as a dispatched board-click command) converts it to
`firebreak`. -/
theorem c10_explosion_in_tower :
    (∀ (g : FireTowerGame) (p : Point), g.validate_firebreak p → p ∉ g.towers) ∧
    (∀ (g : FireTowerGame) (p : Point), p ∈ g.towers → g.ember_phase_one p = g) ∧
    Reachable c10_pre ∧
    (⟨2, 2⟩ : Point) ∈ c10_pre.towers ∧
    c10_pre.board.get ⟨2, 2⟩ = TileStatus.fire ∧
    explosion_legal c10_pre ⟨2, 2⟩ ∧
    (c10_pre.explosion ⟨2, 2⟩).board.get ⟨2, 2⟩ = TileStatus.firebreak ∧
    c10_pre.action = ActionKind.explosionK ∧
    (c10_pre.update (Event.point ⟨2, 2⟩)).board.get ⟨2, 2⟩ = TileStatus.firebreak := by
  refine ⟨?_, ?_, ⟨WindDir.N, c10_events, rfl⟩, by decide, by decide, by decide, by decide,
    by decide, by decide⟩
  · intro g p h
    exact h.2.1
  · intro g p h
    unfold FireTowerGame.ember_phase_one
    rw [if_neg (fun hl => hl.2.2 h)]

/-- Witness for the universally quantified parts of C10 at concrete
inputs: `(0, 5)` validates as a firebreak placement on the fresh board
and is indeed outside every tower, while ember phase one at the tower
cell `(0, 0)` is rejected. -/
theorem c10_explosion_in_tower_witness :
    (⟨0, 5⟩ : Point) ∉ (FireTowerGame.init WindDir.N).towers ∧
    (FireTowerGame.init WindDir.N).ember_phase_one ⟨0, 0⟩ = FireTowerGame.init WindDir.N :=
  ⟨c10_explosion_in_tower.1 (FireTowerGame.init WindDir.N) ⟨0, 5⟩ (by decide),
    c10_explosion_in_tower.2.1 (FireTowerGame.init WindDir.N) ⟨0, 0⟩ (by decide)⟩

end FireTower
